import Mathlib

/-!
Verification model of the `aedi` build orchestrator (files `aedi/state.py`,
`aedi/builder.py`, `aedi/utility.py`).

The Python code is shallowly embedded: file systems become explicit
association-list trees, byte strings become `List Nat`, and every external
tool (hashlib, urllib, tar, patch, lipo) is represented at its interface
boundary, either as an explicit outcome parameter or as a function
parameter.  The definitions mirror the Python control flow statement by
statement; theorems about them follow after all definitions.
-/

set_option autoImplicit false

/-- Bytes of a file, one `Nat` per byte. -/
abbrev Bytes := List Nat

/-- A flat file store mapping absolute path strings to file contents.
Used for the source-package acquisition functions of `BuildState`. -/
abbrev FileMap := List (String × Bytes)

/-- Look up the contents of a file in a `FileMap`. -/
def lookupFile : FileMap → String → Option Bytes
  | [], _ => none
  | (p, d) :: rest, q => if p = q then some d else lookupFile rest q

/-- Create or overwrite a file in a `FileMap` (semantics of opening a path
with mode `wb` and writing `d`). -/
def setFile : FileMap → String → Bytes → FileMap
  | [], q, d => [(q, d)]
  | (p, d0) :: rest, q, d => if p = q then (p, d) :: rest else (p, d0) :: setFile rest q d

/-- Remove a file from a `FileMap` (semantics of `os.unlink` / `Path.unlink`). -/
def unlinkFile (fs : FileMap) (q : String) : FileMap :=
  fs.filter (fun kv => kv.1 ≠ q)

/-- Outcome of the checksum verification of `BuildState._verify_checksum`:
`none` on success, otherwise the data carried by the raised `Exception`
(the message interpolates the file path and both digests). -/
structure ChecksumFailure where
  filepath : String
  expected : String
  actual : String

/-- Model of `BuildState._verify_checksum` (`aedi/state.py`).  The external
`hashlib.sha256(...).hexdigest()` computation is the parameter `sha256hex`.
The Python function hashes `data`, compares the hex digest with `checksum`,
and on mismatch unlinks `filepath` and raises; on match it returns `None`
leaving the file store untouched. -/
def verify_checksum (sha256hex : Bytes → String) (checksum : String) (data : Bytes)
    (filepath : String) (fs : FileMap) : Option ChecksumFailure × FileMap :=
  let file_checksum := sha256hex data
  if file_checksum = checksum then
    (none, fs)
  else
    (some ⟨filepath, checksum, file_checksum⟩, unlinkFile fs filepath)

/-- Outcome of the `urllib.request.urlopen(url)` call and the subsequent
`response.read()` inside `BuildState._read_source_package`:
either `urlopen` itself raises (nothing was opened for writing), or
`response.read()` raises an `IOError` inside the `with open(...)` block,
or the full body is obtained. -/
inductive NetResponse where
  | failUrlopen (msg : String)
  | failRead (msg : String)
  | ok (data : Bytes)

/-- Model of `BuildState._read_source_package` (`aedi/state.py`).
If the file already exists it is read from disk and the network is never
consulted.  Otherwise the URL is fetched; an `IOError` raised inside the
`with open(filepath, 'wb')` block (either from `response.read()` or from
`f.write`, the latter modelled by `writeFail = some writtenPart` with
`writtenPart` the bytes that reached the disk) causes the partial file to
be unlinked before the error is re-raised. -/
def read_source_package (net : NetResponse) (writeFail : Option Bytes)
    (filepath : String) (fs : FileMap) : Except String Bytes × FileMap :=
  match lookupFile fs filepath with
  | some data => (.ok data, fs)
  | none =>
    match net with
    | .failUrlopen msg => (.error msg, fs)
    | .failRead msg => (.error msg, unlinkFile (setFile fs filepath []) filepath)
    | .ok data =>
      match writeFail with
      | some writtenPart => (.error "IOError", unlinkFile (setFile fs filepath writtenPart) filepath)
      | none => (.ok data, setFile fs filepath data)

/-- Model of `BuildState._apply_source_patch` (`aedi/state.py`).  The
external `patch` tool is represented by `dryRun` (exit code of
`patch --dry-run --strip=1 --input=...` on a tree) and `applyReal` (the
tree produced by running `patch` for real).  The Python code applies the
patch exactly when the dry run exits with code zero.  The returned flag
records whether the real (writing) invocation happened. -/
def apply_source_patch {Tree : Type} (dryRun : Tree → Nat) (applyReal : Tree → Tree)
    (t : Tree) : Tree × Bool :=
  if dryRun t = 0 then (applyReal t, true) else (t, false)

/-- Model of `Builder._detect_target` (`aedi/builder.py`).  The registered
targets are listed in registration order together with the result of their
`detect` probe on the current build state.  The Python loop assigns the
first target whose probe is true and breaks; if no probe is true the
trailing `assert self._target` fails (fatal), modelled by `none`. -/
def detect_target (ts : List (String × Bool)) : Option String :=
  match ts.find? (fun t => t.2) with
  | some t => some t.1
  | none => none

/-- Model of the leading-path-component scan of
`BuildState._unpack_source_package` (`aedi/state.py`).  The archive
listing (output lines of `tar -tf`) is scanned for the first line
containing `os.sep`; the text before the first separator of that line is
the component.  A `None` or empty component is fatal.  Paths are
represented as character lists. -/
def firstPathComponent (filepaths : List (List Char)) : Option (List Char) :=
  match filepaths.find? (fun p => p.contains '/') with
  | none => none
  | some p =>
    let c := p.takeWhile (fun ch => ch != '/')
    if c = [] then none else some c

/-- Model of the fatal-error behaviour of `BuildState._unpack_source_package`:
`raise Exception('Failed to figure out source code path ...')` when no
usable leading component was found. -/
def unpack_first_component (filepaths : List (List Char)) : Except String (List Char) :=
  match firstPathComponent filepaths with
  | none => .error "Failed to figure out source code path"
  | some c => .ok c

/-- Model of `aedi.utility.TargetPlatform` restricted to the fields the
constructor stores from its arguments (the derived compiler paths and the
SDK probing of `Builder._populate_platforms.adjust_sdk_path` never
influence the ordering of the platform list). -/
structure TargetPlatform where
  architecture : String
  host : String
  os_version : String

/-- The platform list built by `Builder._populate_platforms` before the
native-first reordering: one `x86_64` entry unless `--disable-x64`, then
one `arm64` entry unless `--disable-arm`, with the default minimum OS
versions `OS_VERSION_X86_64 = 10.9` and `OS_VERSION_ARM64 = 11.0`. -/
def basePlatforms (disableX64 disableArm : Bool) : List TargetPlatform :=
  (if disableX64 then [] else [⟨"x86_64", "x86_64-apple-darwin", "10.9"⟩]) ++
  (if disableArm then [] else [⟨"arm64", "aarch64-apple-darwin", "11.0"⟩])

/-- The `for platform in self._platforms: if platform.architecture == machine():
remove it and reinsert it at the front; break` loop of
`Builder._populate_platforms`: find the first platform whose architecture
matches the running machine and split it off the list. -/
def extractNative (machineArch : String) : List TargetPlatform →
    Option (TargetPlatform × List TargetPlatform)
  | [] => none
  | p :: rest =>
    if p.architecture = machineArch then some (p, rest)
    else
      match extractNative machineArch rest with
      | some (q, rest') => some (q, p :: rest')
      | none => none

/-- The native-first reordering at the end of `Builder._populate_platforms`:
return unchanged when the first platform is already the native one,
otherwise move the first platform matching the machine architecture (if
any) to the front; with no match the list is left as built. -/
def nativeFirst (machineArch : String) : List TargetPlatform → List TargetPlatform
  | [] => []
  | p0 :: rest0 =>
    if p0.architecture = machineArch then p0 :: rest0
    else
      match extractNative machineArch (p0 :: rest0) with
      | some (q, rest) => q :: rest
      | none => p0 :: rest0

/-- Model of `Builder._populate_platforms` (`aedi/builder.py`): build the
platform list from the enabled architectures, then put the platform whose
architecture equals `machine()` first (the early return when the first
platform is already native, and otherwise the remove/insert loop). -/
def populate_platforms (disableX64 disableArm : Bool) (machineArch : String) :
    List TargetPlatform :=
  nativeFirst machineArch (basePlatforms disableX64 disableArm)

/-- A file-system entry for the install-tree merge engine of
`Builder`: either a regular file with its bytes or a directory whose
children are listed in `iterdir` order. -/
inductive Entry where
  | file (content : Bytes)
  | dir (children : List (String × Entry))

/-- Look up a directory child by name. -/
def getChild : List (String × Entry) → String → Option Entry
  | [], _ => none
  | (n, e) :: rest, name => if n = name then some e else getChild rest name

/-- Create or overwrite a directory child (semantics of writing the file
`dst_path / name`, e.g. by `shutil.copy` or `lipo -output`). -/
def setChild : List (String × Entry) → String → Entry → List (String × Entry)
  | [], name, e => [(name, e)]
  | (n, e0) :: rest, name, e =>
    if n = name then (n, e) :: rest else (n, e0) :: setChild rest name e

/-- Resolve `path / name` for a source root that may not exist: a path
below a missing root or below a regular file does not exist. -/
def childOf : Option Entry → String → Option Entry
  | some (.dir cs), name => getChild cs name
  | _, _ => none

/-- Python truthiness of the `content` accumulator in
`Builder._compare_files`: `None` and the empty byte string are falsy. -/
def truthy : Option Bytes → Bool
  | some (_ :: _) => true
  | _ => false

/-- Loop of `Builder._compare_files` (`aedi/builder.py`).  Each element is
what the file system holds at one of the given paths.  A missing path
returns `False`; opening a directory with mode `rb` raises
`IsADirectoryError` (fatal); otherwise the Python truthiness test
`if content:` governs whether the accumulated bytes are compared with the
current file or simply replaced by it. -/
def compareFilesGo : List (Option Entry) → Option Bytes → Except String Bool
  | [], _ => .ok true
  | none :: _, _ => .ok false
  | some (.dir _) :: _, _ => .error "IsADirectoryError"
  | some (.file c) :: rest, acc =>
    if truthy acc then
      if acc = some c then compareFilesGo rest acc else .ok false
    else
      compareFilesGo rest (some c)

/-- Model of `Builder._compare_files`. -/
def compare_files (entries : List (Option Entry)) : Except String Bool :=
  compareFilesGo entries none

/-- The four magic bytes `\xcf\xfa\xed\xfe` identifying a Mach-O
executable in `Builder._merge_file`. -/
def machoMagic : Bytes := [0xcf, 0xfa, 0xed, 0xfe]

/-- The eight magic bytes `!<arch>\n` identifying a static-library
archive in `Builder._merge_file`. -/
def arMagic : Bytes := [0x21, 0x3c, 0x61, 0x72, 0x63, 0x68, 0x3e, 0x0a]

/-- Model of `src.name.endswith('.la')` on the character data of a name. -/
def hasSuffixLa (name : String) : Bool :=
  match name.data.reverse with
  | 'a' :: 'l' :: '.' :: _ => true
  | _ => false

/-- Collect the byte contents of the per-architecture copies for a `lipo`
invocation; `none` when some copy is missing or is a directory, in which
case `lipo` exits non-zero and `subprocess.check_call` raises (fatal). -/
def collectFiles : List (Option Entry) → Option (List Bytes)
  | [] => some []
  | some (.file b) :: rest => (collectFiles rest).map (fun bs => b :: bs)
  | _ => none

/-- One loop iteration of the `for src in src_paths[0].iterdir()` body
shared by `Builder._merge_install_paths` and `Builder._merge_file`.
`recur` is the recursive call into `Builder._merge_install_paths` for
subdirectories, `lipoFuse` is the external `lipo -create` fusion (the
in-place ad-hoc `codesign` rewrite of fused executables is absorbed into
`lipoFuse`, since the engine never reads the fused bytes back).  The
accumulator carries the destination directory children built so far and
the warnings printed so far. -/
def mergeChildStep
    (lipoFuse : List Bytes → Bytes)
    (recur : List (Option Entry) → Option Entry → Bool → Except String (Option Entry × List String))
    (srcs : List (Option Entry)) (missingOnly : Bool)
    (acc : List (String × Entry) × List String) (child : String × Entry) :
    Except String (List (String × Entry) × List String) :=
  let ch := acc.1
  let warns := acc.2
  let name := child.1
  let subPaths := srcs.map (fun s => childOf s name)
  match child.2 with
  | .dir _ =>
    match recur subPaths (getChild ch name) missingOnly with
    | .error e => .error e
    | .ok (sub, w) =>
      match sub with
      | some subEntry => .ok (setChild ch name subEntry, warns ++ w)
      | none => .ok (ch, warns ++ w)
  | .file c =>
    if hasSuffixLa name then
      .ok (ch, warns)
    else if missingOnly then
      if (subPaths.drop 1).any (fun p => p.isNone) then
        match subPaths with
        | some (.file b) :: _ => .ok (setChild ch name (.file b), warns)
        | some (.dir _) :: _ => .error "IsADirectoryError"
        | _ => .error "FileNotFoundError"
      else
        .ok (ch, warns)
    else
      if c.take 4 = machoMagic ∨ c.take 8 = arMagic then
        match collectFiles subPaths with
        | some contents => .ok (setChild ch name (.file (lipoFuse contents)), warns)
        | none => .error "lipo: CalledProcessError"
      else
        match compare_files subPaths with
        | .error e => .error e
        | .ok same =>
          let warns2 := if same then warns else warns ++ [name]
          match subPaths with
          | some (.file b) :: _ => .ok (setChild ch name (.file b), warns2)
          | some (.dir _) :: _ => .error "IsADirectoryError"
          | _ => .error "FileNotFoundError"

/-- The fold over the children of the first source root in
`Builder._merge_install_paths`, stopping at the first raised exception. -/
def mergeFold
    (step : (List (String × Entry) × List String) → (String × Entry) →
      Except String (List (String × Entry) × List String)) :
    List (String × Entry) → (List (String × Entry) × List String) →
      Except String (List (String × Entry) × List String)
  | [], acc => .ok acc
  | c :: cs, acc =>
    match step acc c with
    | .error e => .error e
    | .ok acc' => mergeFold step cs acc'

/-- One rotation of `Builder._merge_missing_files`: move the head of the
shifted source-path list to its tail (`append` then `del [0]`); skip the
supplemental pass when the new first path does not exist. -/
def rotateOnce {α : Type} : List α → List α
  | [] => []
  | x :: xs => xs ++ [x]

/-- Loop driver for the `for _ in range(last_path_index)` loop of
`Builder._merge_missing_files`. -/
def rotLoop {St : Type} (step : St → Except String St) : Nat → St → Except String St
  | 0, st => .ok st
  | n + 1, st =>
    match step st with
    | .error e => .error e
    | .ok st' => rotLoop step n st'

/-- One iteration body of `Builder._merge_missing_files`: rotate the
source list, and when the rotated head exists run a missing-files-only
merge of the rotated list into the destination built so far. -/
def mergeRotationStep
    (recur : List (Option Entry) → Option Entry → Bool → Except String (Option Entry × List String))
    (st : List (Option Entry) × List (String × Entry) × List String) :
    Except String (List (Option Entry) × List (String × Entry) × List String) :=
  let shifted := rotateOnce st.1
  match shifted with
  | some _ :: _ =>
    match recur shifted (some (.dir st.2.1)) true with
    | .error e => .error e
    | .ok (some (.dir ch), w) => .ok (shifted, ch, st.2.2 ++ w)
    | .ok _ => .ok (shifted, st.2.1, st.2.2)
  | _ => .ok (shifted, st.2.1, st.2.2)

/-- Model of `Builder._merge_install_paths` together with its helpers
`Builder._merge_file` and `Builder._merge_missing_files`
(`aedi/builder.py`).  `srcs` are the per-architecture source roots (what
the file system holds at each path), `dst` is what the file system holds
at the destination path, and the result is the new destination entry plus
the warnings printed, or the first raised exception.  `fuel` bounds the
recursion depth; every actual file tree is finite, so a sufficiently
large fuel reproduces the Python recursion exactly.

Statement-by-statement correspondence: an empty source list returns at
once; otherwise a primary pass removes an existing destination tree
(`shutil.rmtree`, which raises on a regular file) while a
missing-files-only pass keeps it (`os.makedirs(..., exist_ok=True)`,
which raises when the path is a regular file); then the children of the
first source root are iterated; finally a primary pass runs the rotating
missing-file reconciliation. -/
def mergeInstallPaths (lipoFuse : List Bytes → Bytes) :
    Nat → List (Option Entry) → Option Entry → Bool →
      Except String (Option Entry × List String)
  | 0, _, _, _ => .error "recursion limit"
  | Nat.succ fuel, srcs, dst, missingOnly =>
    match srcs with
    | [] => .ok (dst, [])
    | s0 :: _ =>
      let initCh : Except String (List (String × Entry)) :=
        if missingOnly then
          match dst with
          | none => .ok []
          | some (.dir cs) => .ok cs
          | some (.file _) => .error "FileExistsError"
        else
          match dst with
          | some (.file _) => .error "NotADirectoryError"
          | _ => .ok []
      match initCh with
      | .error e => .error e
      | .ok ch0 =>
        match s0 with
        | none => .error "FileNotFoundError"
        | some (.file _) => .error "NotADirectoryError"
        | some (.dir headCh) =>
          match mergeFold
              (mergeChildStep lipoFuse
                (fun a b c => mergeInstallPaths lipoFuse fuel a b c) srcs missingOnly)
              headCh (ch0, []) with
          | .error e => .error e
          | .ok (ch, warns) =>
            if missingOnly then
              .ok (some (.dir ch), warns)
            else
              match rotLoop
                  (mergeRotationStep
                    (fun a b c => mergeInstallPaths lipoFuse fuel a b c))
                  (srcs.length - 1) (srcs, ch, warns) with
              | .error e => .error e
              | .ok (_, ch2, warns2) => .ok (some (.dir ch2), warns2)

/-! ## Helper lemmas -/

theorem lookupFile_setFile_self (fs : FileMap) (p : String) (d : Bytes) :
    lookupFile (setFile fs p d) p = some d := by
  induction fs with
  | nil => simp [setFile, lookupFile]
  | cons kv rest ih =>
    obtain ⟨q, d0⟩ := kv
    by_cases h : q = p <;> simp [setFile, lookupFile, h, ih]

theorem lookupFile_unlinkFile_self (fs : FileMap) (p : String) :
    lookupFile (unlinkFile fs p) p = none := by
  induction fs with
  | nil => simp [unlinkFile, lookupFile]
  | cons kv rest ih =>
    by_cases h : kv.1 = p <;>
      simp [unlinkFile, List.filter_cons, h, lookupFile, ih] <;>
      simp [unlinkFile] at ih <;> simpa [h] using ih

/-! ## C1: checksum verification -/

/-- C1: source-package acquisition through `BuildState._verify_checksum`
succeeds (raises nothing) exactly when the SHA-256 hex digest of the data
equals the declared checksum; on a mismatch the archive file is removed
from disk and the raised exception carries both the expected and the
actual digest.  The theorem is universally quantified over the digest
function, hence holds for the SHA-256 instance. -/
theorem verify_checksum_spec (sha256hex : Bytes → String) (checksum : String)
    (data : Bytes) (filepath : String) (fs : FileMap) :
    ((verify_checksum sha256hex checksum data filepath fs).1 = none ↔
        sha256hex data = checksum)
    ∧ (sha256hex data = checksum →
        verify_checksum sha256hex checksum data filepath fs = (none, fs))
    ∧ (sha256hex data ≠ checksum →
        (verify_checksum sha256hex checksum data filepath fs).1
            = some ⟨filepath, checksum, sha256hex data⟩
          ∧ lookupFile (verify_checksum sha256hex checksum data filepath fs).2 filepath
            = none) := by
  unfold verify_checksum
  by_cases h : sha256hex data = checksum <;>
    simp [h, lookupFile_unlinkFile_self]

/-- Witness for C1 at concrete inputs, one matching and one mismatching. -/
theorem verify_checksum_spec_witness :
    verify_checksum (fun _ => "d0") "d0" [1, 2] "source/pkg.tar.gz" [("source/pkg.tar.gz", [1, 2])]
        = (none, [("source/pkg.tar.gz", [1, 2])])
    ∧ lookupFile
        (verify_checksum (fun _ => "d1") "d0" [1, 2] "source/pkg.tar.gz"
          [("source/pkg.tar.gz", [1, 2])]).2 "source/pkg.tar.gz" = none := by
  constructor
  · exact (verify_checksum_spec (fun _ => "d0") "d0" [1, 2] "source/pkg.tar.gz"
      [("source/pkg.tar.gz", [1, 2])]).2.1 rfl
  · exact ((verify_checksum_spec (fun _ => "d1") "d0" [1, 2] "source/pkg.tar.gz"
      [("source/pkg.tar.gz", [1, 2])]).2.2 (by simp)).2

/-! ## C6: idempotent archive acquisition -/

/-- C6: `BuildState._read_source_package` reads the archive from disk
without consulting the network whenever the file already exists (so a
second acquisition succeeds even when the network fails), and an I/O
failure while writing the network response deletes the partially written
file before the error is re-raised; a successful download leaves the file
on disk, making a repeat acquisition succeed with the same bytes. -/
theorem read_source_package_spec (net : NetResponse) (writeFail : Option Bytes)
    (filepath : String) (fs : FileMap) (data0 data writtenPart : Bytes) (msg : String) :
    (lookupFile fs filepath = some data0 →
        read_source_package net writeFail filepath fs = (.ok data0, fs))
    ∧ (lookupFile fs filepath = none →
        read_source_package (.ok data) (some writtenPart) filepath fs
            = (.error "IOError", unlinkFile (setFile fs filepath writtenPart) filepath)
        ∧ lookupFile (read_source_package (.ok data) (some writtenPart) filepath fs).2 filepath
            = none
        ∧ lookupFile (read_source_package (.failRead msg) writeFail filepath fs).2 filepath
            = none
        ∧ read_source_package (.ok data) none filepath fs = (.ok data, setFile fs filepath data)
        ∧ (∀ (net2 : NetResponse) (wf2 : Option Bytes),
            read_source_package net2 wf2 filepath (setFile fs filepath data)
              = (.ok data, setFile fs filepath data))) := by
  constructor
  · intro h
    unfold read_source_package
    rw [h]
  · intro h
    refine ⟨?_, ?_, ?_, ?_, ?_⟩
    · unfold read_source_package; rw [h]
    · unfold read_source_package; rw [h]; exact lookupFile_unlinkFile_self _ _
    · unfold read_source_package; rw [h]; exact lookupFile_unlinkFile_self _ _
    · unfold read_source_package; rw [h]
    · intro net2 wf2
      unfold read_source_package
      rw [lookupFile_setFile_self]

/-- Witness for C6 at concrete inputs: a cached file is served from disk
even when `urlopen` would fail, and a failed write leaves no file behind. -/
theorem read_source_package_spec_witness :
    read_source_package (.failUrlopen "URLError") none "source/pkg.tar.gz"
        [("source/pkg.tar.gz", [7])] = (.ok [7], [("source/pkg.tar.gz", [7])])
    ∧ lookupFile
        (read_source_package (.ok [7]) (some [9]) "source/pkg.tar.gz" []).2
        "source/pkg.tar.gz" = none := by
  constructor
  · exact (read_source_package_spec (.failUrlopen "URLError") none "source/pkg.tar.gz"
      [("source/pkg.tar.gz", [7])] [7] [] [] "m").1 (by simp [lookupFile])
  · exact ((read_source_package_spec (.failUrlopen "URLError") none "source/pkg.tar.gz"
      [] [] [7] [9] "m").2 rfl).2.1

/-! ## C7: patch idempotence -/

/-- C7: `BuildState._apply_source_patch` runs the patch tool in dry-run
mode first and applies the patch for real exactly when the dry run exits
with code zero.  Under the patch-tool contract that a dry run on an
already-patched tree exits non-zero, applying the same patch twice yields
the same tree as applying it once and the second invocation performs no
write. -/
theorem apply_source_patch_idempotent {Tree : Type} (dryRun : Tree → Nat)
    (applyReal : Tree → Tree)
    (happlied : ∀ s, dryRun (applyReal s) ≠ 0) (t : Tree) :
    ((apply_source_patch dryRun applyReal t).2 = true ↔ dryRun t = 0)
    ∧ (apply_source_patch dryRun applyReal (apply_source_patch dryRun applyReal t).1).1
        = (apply_source_patch dryRun applyReal t).1
    ∧ (apply_source_patch dryRun applyReal (apply_source_patch dryRun applyReal t).1).2
        = false := by
  unfold apply_source_patch
  by_cases h : dryRun t = 0
  · simp [h, happlied t]
  · simp [h]

/-- Witness for C7: trees as `Nat`, dry-run exit code as the tree value,
the real application always producing tree `1`. -/
theorem apply_source_patch_idempotent_witness :
    ((apply_source_patch (fun n : Nat => n) (fun _ => 1) 0).2 = true ↔ (0 : Nat) = 0)
    ∧ (apply_source_patch (fun n : Nat => n) (fun _ => 1)
        (apply_source_patch (fun n : Nat => n) (fun _ => 1) 0).1).1
        = (apply_source_patch (fun n : Nat => n) (fun _ => 1) 0).1
    ∧ (apply_source_patch (fun n : Nat => n) (fun _ => 1)
        (apply_source_patch (fun n : Nat => n) (fun _ => 1) 0).1).2 = false :=
  apply_source_patch_idempotent (fun n => n) (fun _ => 1) (fun _ => Nat.one_ne_zero) 0

/-! ## C2: target auto-detection -/

/-- C2 counterexample: two registered targets whose detect probes both
return true.  The claim says an ambiguous match is a fatal error, but
`Builder._detect_target` succeeds and silently selects the first match. -/
theorem detect_target_ambiguous_counterexample :
    detect_target [("gzdoom", true), ("prboom", true)] = some "gzdoom"
    ∧ List.countP (fun t => t.2) [("gzdoom", true), ("prboom", true)] = 2 :=
  ⟨rfl, rfl⟩

/-- C2 amended: when no target is named explicitly, target auto-detection
succeeds exactly when the detect probe returns true for at least one
registered target, selecting the first matching target in registration
order; only zero matches is a fatal error. -/
theorem detect_target_first_match_spec (ts rest : List (String × Bool)) (nm : String) :
    (detect_target ts = none ↔ ∀ p ∈ ts, p.2 = false)
    ∧ detect_target ((nm, true) :: rest) = some nm
    ∧ detect_target ((nm, false) :: rest) = detect_target rest := by
  refine ⟨?_, ?_, ?_⟩
  · unfold detect_target
    rcases hfind : ts.find? (fun t => t.2) with _ | t
    · rw [hfind]
      constructor
      · intro _ p hp
        have hthis := List.find?_eq_none.mp hfind p hp
        simpa using hthis
      · intro _; rfl
    · rw [hfind]
      constructor
      · intro h; exact Option.noConfusion h
      · intro hall
        have h1 := List.find?_some hfind
        have h2 := List.mem_of_find?_eq_some hfind
        rw [hall t h2] at h1
        exact Bool.noConfusion h1
  · unfold detect_target; simp [List.find?]
  · unfold detect_target; simp [List.find?]

/-- Witness for C2 amended at concrete target lists. -/
theorem detect_target_first_match_spec_witness :
    (detect_target [("cmake", false)] = none ↔
        ∀ p ∈ [("cmake", false)], p.2 = false)
    ∧ detect_target [("cmake", true)] = some "cmake"
    ∧ detect_target [("cmake", false)] = detect_target [] :=
  detect_target_first_match_spec [("cmake", false)] [] "cmake"

/-! ## C3: archive leading path component -/

/-- C3 counterexample: a listing whose two entries have different leading
components ("a" and "b") shares no common leading component, yet
`BuildState._unpack_source_package` does not raise; it silently uses the
leading component of the first entry. -/
theorem unpack_first_component_counterexample :
    unpack_first_component [['a', '/', 'x'], ['b', '/', 'y']] = .ok ['a']
    ∧ List.take 2 ['b', '/', 'y'] ≠ ['a', '/'] :=
  ⟨rfl, by decide⟩

theorem takeWhile_append_slash (c s : List Char) (h : ∀ ch ∈ c, ch ≠ '/') :
    (c ++ '/' :: s).takeWhile (fun ch => ch != '/') = c := by
  induction c with
  | nil => simp [List.takeWhile]
  | cons x xs ih =>
    have hx : x ≠ '/' := h x (by simp)
    have ih' := ih (fun ch hch => h ch (by simp [hch]))
    simp [List.takeWhile_cons, bne_iff_ne, hx, ih']

/-- C3 amended: `BuildState._unpack_source_package` determines the leading
path component of the first listed entry that contains a path separator
(which is the common component whenever the single-root convention
holds), and raises a fatal exception exactly when no usable component is
found there; in particular it raises whenever no entry contains a
separator at all. -/
theorem unpack_first_component_spec (paths : List (List Char)) (c : List Char) :
    ((∀ p ∈ paths, p.contains '/' = false) →
        unpack_first_component paths = .error "Failed to figure out source code path")
    ∧ (c ≠ [] → (∀ ch ∈ c, ch ≠ '/') →
        (∃ p ∈ paths, p.contains '/' = true) →
        (∀ p ∈ paths, p.contains '/' = true → ∃ s, p = c ++ '/' :: s) →
        unpack_first_component paths = .ok c) := by
  constructor
  · intro hall
    unfold unpack_first_component firstPathComponent
    have hnone : paths.find? (fun p => p.contains '/') = none := by
      rw [List.find?_eq_none]
      intro p hp
      simpa using hall p hp
    rw [hnone]
  · intro hc hnosep hex hconv
    unfold unpack_first_component firstPathComponent
    rcases hfind : paths.find? (fun p => p.contains '/') with _ | q
    · obtain ⟨p0, hp0, hcp0⟩ := hex
      have hthis := List.find?_eq_none.mp hfind p0 hp0
      rw [hcp0] at hthis
      exact absurd rfl hthis
    · have h1 := List.find?_some hfind
      have h2 := List.mem_of_find?_eq_some hfind
      obtain ⟨s, rfl⟩ := hconv q h2 h1
      rw [hfind]
      simp only [takeWhile_append_slash c s hnosep]
      rw [if_neg hc]

/-- Witness for C3 amended: a conventional single-root listing and a
separator-free listing. -/
theorem unpack_first_component_spec_witness :
    unpack_first_component [['p', 'k', 'g', '/'], ['p', 'k', 'g', '/', 'f']]
        = .ok ['p', 'k', 'g']
    ∧ unpack_first_component [['R', 'E', 'A', 'D']]
        = .error "Failed to figure out source code path" := by
  constructor
  · exact (unpack_first_component_spec [['p', 'k', 'g', '/'], ['p', 'k', 'g', '/', 'f']]
      ['p', 'k', 'g']).2 (by decide) (by decide)
      ⟨['p', 'k', 'g', '/'], by simp, by decide⟩
      (by
        intro p hp _
        rcases List.mem_cons.mp hp with rfl | hp
        · exact ⟨[], rfl⟩
        · rcases List.mem_cons.mp hp with rfl | hp
          · exact ⟨['f'], rfl⟩
          · cases hp)
  · exact (unpack_first_component_spec [['R', 'E', 'A', 'D']] []).1 (by decide)

/-! ## C9: native platform ordering -/

theorem extractNative_some (m : String) (ps : List TargetPlatform) :
    ∀ (q : TargetPlatform) (rest : List TargetPlatform),
      extractNative m ps = some (q, rest) →
      q.architecture = m ∧ ps.Perm (q :: rest) := by
  induction ps with
  | nil => intro q rest h; exact Option.noConfusion h
  | cons p ps ih =>
    intro q rest h
    simp only [extractNative] at h
    split at h
    · next harch =>
      injection h with h2
      injection h2 with hq hrest
      subst hq; subst hrest
      exact ⟨harch, List.Perm.refl _⟩
    · next harch =>
      split at h
      · next q' rest' hrec =>
        injection h with h2
        injection h2 with hq hrest
        subst hq; subst hrest
        obtain ⟨ha, hperm⟩ := ih q' rest' hrec
        exact ⟨ha, (hperm.cons p).trans (List.Perm.swap q' p rest')⟩
      · exact Option.noConfusion h

theorem extractNative_none (m : String) (ps : List TargetPlatform)
    (h : extractNative m ps = none) : ∀ p ∈ ps, p.architecture ≠ m := by
  induction ps with
  | nil => simp
  | cons p ps ih =>
    simp only [extractNative] at h
    split at h
    · exact Option.noConfusion h
    · next harch =>
      split at h
      · exact Option.noConfusion h
      · next hrec =>
        intro x hx
        rcases List.mem_cons.mp hx with rfl | hx
        · exact harch
        · exact ih hrec x hx

/-- C9: after `Builder._populate_platforms`, the platform list is a
permutation of the platforms constructed from the enabled architectures,
it is non-empty (the Python `assert`), and whenever it contains a
platform whose architecture equals the running machine's architecture,
the first platform of the list has that architecture. -/
theorem populate_platforms_native_first (disableX64 disableArm : Bool)
    (machineArch : String) (h : ¬(disableX64 = true ∧ disableArm = true)) :
    (populate_platforms disableX64 disableArm machineArch).Perm
        (basePlatforms disableX64 disableArm)
    ∧ populate_platforms disableX64 disableArm machineArch ≠ []
    ∧ (∀ p ∈ populate_platforms disableX64 disableArm machineArch,
        p.architecture = machineArch →
        ∃ q rest, populate_platforms disableX64 disableArm machineArch = q :: rest
          ∧ q.architecture = machineArch) := by
  have hbase : basePlatforms disableX64 disableArm ≠ [] := by
    cases disableX64 <;> cases disableArm <;> simp [basePlatforms] at h ⊢
  have key : ∀ ps : List TargetPlatform, (nativeFirst machineArch ps).Perm ps
      ∧ (∀ p ∈ nativeFirst machineArch ps, p.architecture = machineArch →
          ∃ q rest, nativeFirst machineArch ps = q :: rest
            ∧ q.architecture = machineArch) := by
    intro ps
    cases ps with
    | nil => exact ⟨List.Perm.refl _, by simp [nativeFirst]⟩
    | cons p0 rest0 =>
      by_cases h0 : p0.architecture = machineArch
      · simp only [nativeFirst, if_pos h0]
        exact ⟨List.Perm.refl _, fun p _ _ => ⟨p0, rest0, rfl, h0⟩⟩
      · simp only [nativeFirst, if_neg h0]
        rcases hx : extractNative machineArch (p0 :: rest0) with _ | ⟨q, rest⟩
        · refine ⟨List.Perm.refl _, fun p hp harch => ?_⟩
          exact absurd harch (extractNative_none machineArch (p0 :: rest0) hx p hp)
        · obtain ⟨ha, hperm⟩ := extractNative_some machineArch (p0 :: rest0) q rest hx
          exact ⟨hperm.symm, fun p _ _ => ⟨q, rest, rfl, ha⟩⟩
  have hk := key (basePlatforms disableX64 disableArm)
  refine ⟨hk.1, ?_, hk.2⟩
  intro hnil
  unfold populate_platforms at hnil
  rw [hnil] at hk
  exact hbase hk.1.nil_eq.symm

/-- Witness for C9: both architectures enabled on an `arm64` machine. -/
theorem populate_platforms_native_first_witness :
    (populate_platforms false false "arm64").Perm (basePlatforms false false)
    ∧ populate_platforms false false "arm64" ≠ []
    ∧ (∀ p ∈ populate_platforms false false "arm64", p.architecture = "arm64" →
        ∃ q rest, populate_platforms false false "arm64" = q :: rest
          ∧ q.architecture = "arm64") :=
  populate_platforms_native_first false false "arm64" (by simp)

/-! ## C10: comparison edge cases -/

theorem compareFilesGo_none_mem (l : List (Option Entry)) :
    ∀ acc : Option Bytes,
      (∀ p ∈ l, ∀ cs, p ≠ some (.dir cs)) → none ∈ l →
      compareFilesGo l acc = .ok false := by
  induction l with
  | nil => intro acc _ hmem; cases hmem
  | cons p rest ih =>
    intro acc hnd hmem
    cases p with
    | none => rfl
    | some e =>
      cases e with
      | dir cs => exact absurd rfl (hnd (some (.dir cs)) (by simp) cs)
      | file c =>
        have hmem' : none ∈ rest := by
          rcases List.mem_cons.mp hmem with hbad | hgood
          · exact Option.noConfusion hbad
          · exact hgood
        have hnd' : ∀ p ∈ rest, ∀ cs, p ≠ some (.dir cs) :=
          fun p hp => hnd p (List.mem_cons_of_mem _ hp)
        simp only [compareFilesGo]
        by_cases ht : truthy acc
        · rw [if_pos ht]
          by_cases he : acc = some c
          · rw [if_pos he]
            exact ih acc hnd' hmem'
          · rw [if_neg he]
        · rw [if_neg ht]
          exact ih (some c) hnd' hmem'

/-- C10: `Builder._compare_files` returns `False` whenever some path in
the sequence does not exist (for sequences of regular-file or missing
paths, the function's domain), and for a two-element sequence of existing
files whose first file is empty it returns `True` regardless of the
second file's content: the Python truthiness test `if content:` treats
the empty first read like the initial `None`, replacing the reference
content instead of comparing. -/
theorem compare_files_spec (l : List (Option Entry)) (c : Bytes) :
    ((∀ p ∈ l, ∀ cs, p ≠ some (.dir cs)) → none ∈ l → compare_files l = .ok false)
    ∧ compare_files [some (.file []), some (.file c)] = .ok true := by
  constructor
  · exact fun hnd hmem => compareFilesGo_none_mem l none hnd hmem
  · rfl

/-- Witness for C10 at concrete path sequences. -/
theorem compare_files_spec_witness :
    compare_files [some (.file [1]), none] = .ok false
    ∧ compare_files [some (.file []), some (.file [5])] = .ok true := by
  constructor
  · exact (compare_files_spec [some (.file [1]), none] []).1
      (by
        intro p hp cs
        rcases List.mem_cons.mp hp with rfl | hp
        · simp
        · rcases List.mem_cons.mp hp with rfl | hp
          · simp
          · cases hp)
      (by simp)
  · exact (compare_files_spec [] [5]).2

/-! ## Merge-engine preservation lemmas -/

theorem getChild_setChild_ne_none (cs : List (String × Entry)) (name n : String)
    (e : Entry) (h : getChild cs n ≠ none) :
    getChild (setChild cs name e) n ≠ none := by
  induction cs with
  | nil => simp [getChild] at h
  | cons kv rest ih =>
    obtain ⟨q, e0⟩ := kv
    by_cases hq : q = name
    · subst hq
      by_cases hn : q = n
      · simp [setChild, getChild, hn]
      · simp only [setChild, if_pos rfl, getChild, if_neg hn] at h ⊢
        exact h
    · by_cases hn : q = n
      · subst hn
        simp [setChild, getChild, hq]
      · simp only [setChild, if_neg hq, getChild, if_neg hn] at h ⊢
        exact ih h

theorem mergeChildStep_preserves
    (lf : List Bytes → Bytes)
    (recur : List (Option Entry) → Option Entry → Bool →
      Except String (Option Entry × List String))
    (srcs : List (Option Entry)) (mo : Bool)
    (acc acc' : List (String × Entry) × List String) (child : String × Entry)
    (h : mergeChildStep lf recur srcs mo acc child = .ok acc')
    (n : String) (hn : getChild acc.1 n ≠ none) : getChild acc'.1 n ≠ none := by
  obtain ⟨ch, warns⟩ := acc
  obtain ⟨name, e⟩ := child
  cases e <;>
    (simp only [mergeChildStep] at h
     repeat' split at h) <;>
    first
      | exact Except.noConfusion h
      | (injection h with h2; subst h2; exact getChild_setChild_ne_none _ _ _ _ hn)
      | (injection h with h2; subst h2; exact hn)

theorem mergeFold_preserves
    (step : (List (String × Entry) × List String) → (String × Entry) →
      Except String (List (String × Entry) × List String))
    (hstep : ∀ acc acc' c, step acc c = .ok acc' →
      ∀ n, getChild acc.1 n ≠ none → getChild acc'.1 n ≠ none)
    (cs : List (String × Entry)) :
    ∀ acc acc', mergeFold step cs acc = .ok acc' →
      ∀ n, getChild acc.1 n ≠ none → getChild acc'.1 n ≠ none := by
  induction cs with
  | nil =>
    intro acc acc' h n hn
    simp only [mergeFold] at h
    injection h with h2
    subst h2
    exact hn
  | cons c cs ih =>
    intro acc acc' h n hn
    simp only [mergeFold] at h
    split at h
    · exact Except.noConfusion h
    · next a1 ha1 => exact ih a1 acc' h n (hstep acc a1 c ha1 n hn)

/-! ## C8: destination clearing -/

/-- C8: for a non-empty list of per-architecture source roots, a primary
merge pass first removes any existing destination directory and recreates
it fresh (the result does not depend on the previous destination
directory), whereas a missing-files-only supplemental pass never clears
the destination: it starts from the existing destination children and
only adds or overwrites entries, so every name present before the pass is
still present afterwards. -/
theorem merge_install_paths_clear_spec (lf : List Bytes → Bytes) (fuel : Nat)
    (srcs : List (Option Entry)) (hne : srcs ≠ []) :
    (∀ dst : Option Entry, (dst = none ∨ ∃ cs, dst = some (.dir cs)) →
        mergeInstallPaths lf fuel srcs dst false
          = mergeInstallPaths lf fuel srcs (some (.dir [])) false)
    ∧ (∀ (d : List (String × Entry)) (res : Option Entry) (w : List String),
        mergeInstallPaths lf fuel srcs (some (.dir d)) true = .ok (res, w) →
        ∃ ch, res = some (.dir ch)
          ∧ ∀ n, getChild d n ≠ none → getChild ch n ≠ none) := by
  constructor
  · intro dst hdst
    cases fuel with
    | zero => rfl
    | succ fuel =>
      cases srcs with
      | nil => exact absurd rfl hne
      | cons s0 rest => rcases hdst with rfl | ⟨cs, rfl⟩ <;> rfl
  · intro d res w h
    cases fuel with
    | zero => exact Except.noConfusion h
    | succ fuel =>
      cases srcs with
      | nil =>
        simp only [mergeInstallPaths] at h
        injection h with h2
        injection h2 with h3 h4
        subst h3
        exact ⟨d, rfl, fun n hn => hn⟩
      | cons s0 rest =>
        cases s0 with
        | none =>
          simp only [mergeInstallPaths] at h
          exact Except.noConfusion h
        | some e =>
          cases e with
          | file c =>
            simp only [mergeInstallPaths] at h
            exact Except.noConfusion h
          | dir headCh =>
            simp only [mergeInstallPaths, if_true] at h
            split at h
            · exact Except.noConfusion h
            · next ch warns hfold =>
              injection h with h2
              injection h2 with h3 h4
              subst h3
              refine ⟨ch, rfl, fun n hn => ?_⟩
              exact mergeFold_preserves _
                (fun acc acc' c hc => mergeChildStep_preserves lf _ _ true acc acc' c hc)
                headCh (d, []) (ch, warns) hfold n hn

/-- Witness for C8 at concrete trees. -/
theorem merge_install_paths_clear_spec_witness :
    mergeInstallPaths (fun _ => []) 3 [some (.dir [])]
        (some (.dir [("a", .file [])])) false
      = mergeInstallPaths (fun _ => []) 3 [some (.dir [])] (some (.dir [])) false
    ∧ ∃ ch, (some (.dir [("y", .file [2])]) : Option Entry) = some (.dir ch)
        ∧ ∀ n, getChild [("y", .file [2])] n ≠ none → getChild ch n ≠ none := by
  constructor
  · exact (merge_install_paths_clear_spec (fun _ => []) 3 [some (.dir [])]
      (by simp)).1 (some (.dir [("a", .file [])])) (Or.inr ⟨_, rfl⟩)
  · exact (merge_install_paths_clear_spec (fun _ => []) 3 [some (.dir [])]
      (by simp)).2 [("y", .file [2])] (some (.dir [("y", .file [2])])) [] rfl

/-! ## C4: missing-file reconciliation -/

/-- C4 counterexample: three per-architecture roots where architecture A
has `x` with bytes `[97]`, B has `x` with bytes `[98]` and C lacks `x`.
The primary merge places A's copy (with a warning), so `x` is present in
the merged destination; the claim then forbids any further copy.  But the
supplemental rotation with B as primary copies B's `x` because C (another
source root) lacks it, overwriting the merged file: the final content is
`[98]`, not A's `[97]`. -/
theorem merge_missing_overwrite_counterexample :
    mergeInstallPaths (fun _ => []) 4
        [some (.dir [("x", .file [97])]), some (.dir [("x", .file [98])]),
          some (.dir [])] none false
      = .ok (some (.dir [("x", .file [98])]), ["x"])
    ∧ ([98] : Bytes) ≠ [97] :=
  ⟨rfl, by decide⟩

/-- C4 amended: in the supplemental missing-file pass, a non-`.la`
regular file under the rotated primary is copied into the merged
destination exactly when it is absent from at least one of the other
source roots in the rotated order (not when it is absent from the
destination), and such a copy may overwrite an existing merged file.
For two-architecture trees the two criteria coincide, and when
architecture A contains file `x` and architecture B lacks it the final
destination contains `x` sourced from A (already placed by the primary
pass, with a warning). -/
theorem merge_missing_copy_condition_spec
    (lf : List Bytes → Bytes)
    (recur : List (Option Entry) → Option Entry → Bool →
      Except String (Option Entry × List String))
    (srcs : List (Option Entry)) (ch : List (String × Entry)) (warns : List String)
    (name : String) (c b : Bytes) (tail : List (Option Entry))
    (hla : hasSuffixLa name = false)
    (hsub : srcs.map (fun s => childOf s name) = some (.file b) :: tail) :
    mergeChildStep lf recur srcs true (ch, warns) (name, .file c)
      = .ok ((if tail.any (fun p => p.isNone) then setChild ch name (.file b) else ch),
          warns)
    ∧ mergeInstallPaths lf 4
        [some (.dir [("x", .file [97])]), some (.dir [])] none false
      = .ok (some (.dir [("x", .file [97])]), ["x"]) := by
  constructor
  · simp only [mergeChildStep, hsub, hla, Bool.false_eq_true, if_false,
      List.drop_succ_cons, List.drop_zero, if_true]
    by_cases ht : tail.any (fun p => p.isNone) <;> simp [ht]
  · rfl

/-- Witness for C4 amended: a two-root tree where the second root lacks
the file, so the copy condition holds. -/
theorem merge_missing_copy_condition_spec_witness :
    mergeChildStep (fun _ => []) (fun _ _ _ => .error "")
        [some (.dir [("x", .file [5])]), some (.dir [])] true ([], []) ("x", .file [5])
      = .ok ((if [(none : Option Entry)].any (fun p => p.isNone)
            then setChild [] "x" (.file [5]) else []), [])
    ∧ mergeInstallPaths (fun _ => []) 4
        [some (.dir [("x", .file [97])]), some (.dir [])] none false
      = .ok (some (.dir [("x", .file [97])]), ["x"]) :=
  merge_missing_copy_condition_spec (fun _ => []) (fun _ _ _ => .error "")
    [some (.dir [("x", .file [5])]), some (.dir [])] [] [] "x" [5] [5] [none] rfl rfl

/-! ## C5: non-binary file merge and warnings -/

/-- C5 counterexample: two per-architecture copies of `x`, the first
empty and the second `[97]`.  The copies exist and differ, so the claim
requires a warning; but `Builder._compare_files` treats the empty first
read as "no reference content yet" and returns `True`, so no warning is
emitted and the empty first copy is placed in the destination. -/
theorem merge_file_empty_no_warning_counterexample :
    mergeInstallPaths (fun _ => []) 4
        [some (.dir [("x", .file [])]), some (.dir [("x", .file [97])])] none false
      = .ok (some (.dir [("x", .file [])]), [])
    ∧ ([] : Bytes) ≠ [97] :=
  ⟨rfl, by decide⟩

theorem compareFilesGo_all_same (c : Bytes) (l : List (Option Entry)) :
    ∀ acc : Option Bytes, (∀ p ∈ l, p = some (.file c)) →
      (acc = none ∨ acc = some c) → compareFilesGo l acc = .ok true := by
  induction l with
  | nil => intro acc _ _; rfl
  | cons p rest ih =>
    intro acc hl hacc
    have hp := hl p (by simp)
    subst hp
    have hrest : ∀ p ∈ rest, p = some (.file c) :=
      fun p hp => hl p (List.mem_cons_of_mem _ hp)
    simp only [compareFilesGo]
    by_cases ht : truthy acc
    · have he : acc = some c := by
        rcases hacc with rfl | rfl
        · simp [truthy] at ht
        · rfl
      rw [if_pos ht, if_pos he]
      exact ih acc hrest hacc
    · rw [if_neg ht]
      exact ih (some c) hrest (Or.inr rfl)

/-- C5 amended: in the primary merge, a regular file matching neither
binary magic is copied once from the first architecture; no warning is
emitted when all per-architecture copies exist and are byte-identical,
and a warning is emitted exactly when `Builder._compare_files` fails,
which (per C10's edge case) tolerates differing copies whenever the
reads preceding the first non-empty content are empty. -/
theorem merge_file_warning_spec
    (lf : List Bytes → Bytes)
    (recur : List (Option Entry) → Option Entry → Bool →
      Except String (Option Entry × List String))
    (srcs : List (Option Entry)) (ch : List (String × Entry)) (warns : List String)
    (name : String) (c b : Bytes) (tail : List (Option Entry))
    (hla : hasSuffixLa name = false)
    (hmagic : ¬(c.take 4 = machoMagic ∨ c.take 8 = arMagic)) :
    (srcs ≠ [] → (∀ p ∈ srcs.map (fun s => childOf s name), p = some (.file c)) →
        mergeChildStep lf recur srcs false (ch, warns) (name, .file c)
          = .ok (setChild ch name (.file c), warns))
    ∧ (srcs.map (fun s => childOf s name) = some (.file b) :: tail →
        compare_files (some (.file b) :: tail) = .ok false →
        mergeChildStep lf recur srcs false (ch, warns) (name, .file c)
          = .ok (setChild ch name (.file b), warns ++ [name])) := by
  constructor
  · intro hne hall
    have hcmp : compare_files (srcs.map (fun s => childOf s name)) = .ok true :=
      compareFilesGo_all_same c _ none hall (Or.inl rfl)
    have hhead : ∃ t, srcs.map (fun s => childOf s name) = some (.file c) :: t := by
      cases srcs with
      | nil => exact absurd rfl hne
      | cons s rest =>
        refine ⟨rest.map (fun s => childOf s name), ?_⟩
        have hs : childOf s name = some (.file c) := hall _ (by simp)
        simp [hs]
    obtain ⟨t, hsub⟩ := hhead
    rw [hsub] at hcmp
    simp only [mergeChildStep, hsub, hla, Bool.false_eq_true, if_false, hmagic,
      hcmp, if_true]
  · intro hsub hcmp
    simp only [mergeChildStep, hsub, hla, Bool.false_eq_true, if_false, hmagic,
      hcmp, if_true]

/-- Witness for C5 amended: identical copies on the left, a missing
second copy (failing comparison) on the right. -/
theorem merge_file_warning_spec_witness :
    mergeChildStep (fun _ => []) (fun _ _ _ => .error "")
        [some (.dir [("x", .file [7])])] false ([], []) ("x", .file [7])
      = .ok (setChild [] "x" (.file [7]), [])
    ∧ mergeChildStep (fun _ => []) (fun _ _ _ => .error "")
        [some (.dir [("x", .file [7])]), some (.dir [])] false ([], []) ("x", .file [7])
      = .ok (setChild [] "x" (.file [7]), [] ++ ["x"]) := by
  constructor
  · exact (merge_file_warning_spec (fun _ => []) (fun _ _ _ => .error "")
      [some (.dir [("x", .file [7])])] [] [] "x" [7] [7] []
      rfl (by decide)).1 (by simp)
      (by
        intro p hp
        rw [show [some (Entry.dir [("x", Entry.file [7])])].map
            (fun s => childOf s "x") = [some (Entry.file [7])] from rfl] at hp
        simpa using hp)
  · exact (merge_file_warning_spec (fun _ => []) (fun _ _ _ => .error "")
      [some (.dir [("x", .file [7])]), some (.dir [])] [] [] "x" [7] [7] [none]
      rfl (by decide)).2 rfl rfl
